import Mathlib

/-!
Verification of the tunnel-flow reverse-HTTP-tunnel server and agent.

Strings are modelled as lists of characters (`Str`). The helper functions
`goIndex`, `goSplit`, `goHasPrefix`, ... embed the behaviour of the Go
standard-library `strings` functions used by the code, for the non-empty
separators the code passes them. Every definition is translated from the
repository's source; the file then proves or refutes the specification
claims about those definitions.
-/

namespace TunnelFlow

abbrev Str := List Char

def strOf (s : String) : Str := s.toList

/-- `strings.Index(s, sub)`: index of the first occurrence of `sub` in `s`,
`none` when absent (Go returns -1). `Index(s, "") = 0`. -/
def goIndex (s sub : Str) : Option Nat :=
  if sub.isPrefixOf s then some 0
  else
    match s with
    | [] => none
    | _ :: t => (goIndex t sub).map (· + 1)

/-- `strings.Contains(s, sub)`, which Go defines as `Index(s, sub) >= 0`. -/
def goContains (s sub : Str) : Bool := (goIndex s sub).isSome

/-- `strings.HasPrefix(s, pre)`. -/
def goHasPrefix (s pre : Str) : Bool := pre.isPrefixOf s

/-- `strings.HasSuffix(s, suf)`. -/
def goHasSuffix (s suf : Str) : Bool := suf.isSuffixOf s

/-- `strings.TrimPrefix(s, pre)`. -/
def goTrimPrefix (s pre : Str) : Str :=
  if pre.isPrefixOf s then s.drop pre.length else s

/-- `strings.TrimSuffix(s, suf)`. -/
def goTrimSuffix (s suf : Str) : Str :=
  if suf.isSuffixOf s then s.take (s.length - suf.length) else s

/-- `strings.Trim(s, cutset)` for a single-character cutset: remove all
leading and all trailing occurrences of `c`. -/
def goTrimChar (s : Str) (c : Char) : Str :=
  ((s.dropWhile (· = c)).reverse.dropWhile (· = c)).reverse

/-- Fuelled worker for `goSplit`; the fuel only serves termination and any
fuel ≥ |s| + 1 computes Go's `strings.Split` for a non-empty separator. -/
def goSplitF : Nat → Str → Str → List Str
  | 0, _, s => [s]
  | fuel + 1, sep, s =>
    match goIndex s sep with
    | none => [s]
    | some i => s.take i :: goSplitF fuel sep (s.drop (i + sep.length))

/-- `strings.Split(s, sep)` for the non-empty separators (`"/"`, `"*"`,
`"**"`) the code uses: split around each leftmost non-overlapping match. -/
def goSplit (sep s : Str) : List Str := goSplitF (s.length + 1) sep s

/-- `strings.Count(s, sub)` for non-empty `sub`: Go's count of
non-overlapping instances, which equals `len(Split(s, sub)) - 1`. -/
def goCount (s sub : Str) : Nat := (goSplit sub s).length - 1

def star : Char := '*'
def slash : Char := '/'
def sstar : Str := [star]
def dstar : Str := [star, star]

/-- `strings.Contains(pattern, "*")`. -/
def containsStar (pattern : Str) : Bool := goContains pattern sstar

/-! ### pattern.go: MatchPattern and helpers -/

/-- The loop of `matchSegmentWithWildcard` over `parts = Split(pattern, "*")`
with running index `i` (of `n = len(parts)`) and position `cur` in the
segment. -/
def segWildAux (segment : Str) (n : Nat) : Nat → Nat → List Str → Bool
  | _, _, [] => true
  | i, cur, part :: rest =>
    if part = [] then segWildAux segment n (i + 1) cur rest
    else
      match goIndex (segment.drop cur) part with
      | none => false
      | some pos =>
        if i = 0 ∧ pos ≠ 0 then false
        else if i = n - 1 ∧ cur + pos + part.length ≠ segment.length then false
        else segWildAux segment n (i + 1) (cur + pos + part.length) rest

/-- `matchSegmentWithWildcard(pattern, segment)` from pattern.go. -/
def matchSegmentWithWildcard (pattern segment : Str) : Bool :=
  let parts := goSplit sstar pattern
  if parts.length = 1 ∧ parts.headD [] = [] then true
  else segWildAux segment parts.length 0 0 parts

/-- The segment-wise comparison loop of `MatchPattern` (equal segment
counts); called only with lists of the same length. -/
def segmentsMatch : List Str → List Str → Bool
  | [], [] => true
  | pp :: ps, qq :: qs =>
    if pp = sstar then segmentsMatch ps qs
    else if containsStar pp then
      matchSegmentWithWildcard pp qq && segmentsMatch ps qs
    else decide (pp = qq) && segmentsMatch ps qs
  | _, _ => false

/-- `matchPrefix(pattern, path)` from pattern.go. -/
def matchPrefix (pattern path : Str) : Bool :=
  let pre0 := goTrimSuffix pattern sstar
  let pre := goTrimSuffix pre0 [slash]
  if pre = [] then true else goHasPrefix path pre

/-- `matchSuffix(pattern, path)` from pattern.go. -/
def matchSuffix (pattern path : Str) : Bool :=
  let suf0 := goTrimPrefix pattern sstar
  let suf := goTrimPrefix suf0 [slash]
  if suf = [] then true else goHasSuffix path suf

/-- Lines 31–70 of `MatchPattern`: split into `/`-segments, compare
segment-wise when the counts agree, otherwise fall back to prefix / suffix
matching. -/
def segmentPhase (pattern path : Str) : Bool :=
  let patternParts := goSplit [slash] pattern
  let pathParts := goSplit [slash] path
  if patternParts.length ≠ pathParts.length then
    if patternParts.length > 0 ∧ goHasSuffix (patternParts.getLastD []) sstar then
      matchPrefix pattern path
    else if patternParts.length > 0 ∧ goHasPrefix (patternParts.headD []) sstar then
      matchSuffix pattern path
    else false
  else segmentsMatch patternParts pathParts

/-- `MatchPattern` restricted to patterns without `**`. This is exactly what
the Go `MatchPattern` computes on such patterns; `matchWithDoubleWildcard`
re-enters `MatchPattern` only when `Split(pattern, "**")` has one part,
i.e. when the pattern contains no `**`, so the mutual recursion bottoms out
here. -/
def matchSimple (pattern path : Str) : Bool :=
  if pattern = path then true
  else if ¬ containsStar pattern then decide (pattern = path)
  else segmentPhase pattern path

/-- The guard `if prefix != "" && !HasPrefix(path, prefix)` plus the
`TrimPrefix` rewrite of `matchWithDoubleWildcard` (`none` = return false). -/
def dwPrefixStep (p0 path : Str) : Option Str :=
  if p0 = [] then some path
  else
    let pre := goTrimSuffix p0 [slash]
    if pre ≠ [] ∧ ¬ goHasPrefix path pre then none
    else some (goTrimPrefix path pre)

/-- The suffix guard and `TrimSuffix` rewrite of `matchWithDoubleWildcard`. -/
def dwSuffixStep (plast path : Str) : Option Str :=
  if plast = [] then some path
  else
    let suf := goTrimPrefix plast [slash]
    if suf ≠ [] ∧ ¬ goHasSuffix path suf then none
    else some (goTrimSuffix path suf)

/-- The interior-parts loop of `matchWithDoubleWildcard`: every non-empty
interior part, trimmed of slashes, must merely be contained in `path`
(`strings.Contains`), with no ordering constraint. -/
def dwMiddles (mids : List Str) (path : Str) : Bool :=
  mids.all fun part => part = [] || goContains path (goTrimChar part slash)

/-- `matchWithDoubleWildcard(pattern, path)` from pattern.go. -/
def matchWithDoubleWildcard (pattern path : Str) : Bool :=
  let parts := goSplit dstar pattern
  if parts.length = 1 then matchSimple pattern path
  else
    match dwPrefixStep (parts.headD []) path with
    | none => false
    | some path1 =>
      match dwSuffixStep (parts.getLastD []) path1 with
      | none => false
      | some path2 => dwMiddles ((parts.drop 1).dropLast) path2

/-- `MatchPattern(pattern, path)` from pattern.go. -/
def MatchPattern (pattern path : Str) : Bool :=
  if pattern = path then true
  else if ¬ containsStar pattern then decide (pattern = path)
  else if goContains pattern dstar then matchWithDoubleWildcard pattern path
  else segmentPhase pattern path

/-! ### pattern.go: GetPatternPriority, IsValidPattern, NormalizePattern -/

/-- The position-penalty loop of `GetPatternPriority` over the
`/`-segments, with `n = len(parts)` and running index `i`. -/
def priorityLoop (n : Nat) : Nat → List Str → Int → Int
  | _, [], pr => pr
  | i, part :: rest, pr =>
    let pr' :=
      if part = sstar then pr - ((n : Int) - (i : Int)) * 10
      else if containsStar part then pr - ((n : Int) - (i : Int)) * 5
      else pr
    priorityLoop n (i + 1) rest pr'

/-- `GetPatternPriority(pattern)` from pattern.go. -/
def GetPatternPriority (pattern : Str) : Int :=
  if ¬ containsStar pattern then 1000
  else if goContains pattern dstar then
    let d : Int := goCount pattern dstar
    let pr := 300 - d * 50
    let s : Int := (goCount pattern sstar : Int) - d * 2
    pr - s * 20
  else if goHasSuffix pattern sstar then
    150 + ((goTrimSuffix pattern sstar).length : Int)
  else if goHasPrefix pattern sstar then
    100 + ((goTrimPrefix pattern sstar).length : Int)
  else
    let w : Int := goCount pattern sstar
    let parts := goSplit [slash] pattern
    let pr := priorityLoop parts.length 0 parts (700 - w * 100)
    if pr < 0 then 1 else pr

/-- `IsValidPattern(pattern)` from pattern.go. -/
def IsValidPattern (pattern : Str) : Bool :=
  if pattern = [] then false
  else if ¬ goHasPrefix pattern [slash] then false
  else if goContains pattern [slash, slash] then false
  else true

/-- Second step of `NormalizePattern`: `if len(pattern) > 1 &&
HasSuffix(pattern, "/") { pattern = TrimSuffix(pattern, "/") }`. -/
def normTrailing (p1 : Str) : Str :=
  if p1.length > 1 ∧ goHasSuffix p1 [slash] = true then goTrimSuffix p1 [slash] else p1

/-- `NormalizePattern(pattern)` from pattern.go: ensure a leading `/`, then
remove a single trailing `/` unless the result is the root. -/
def NormalizePattern (pattern : Str) : Str :=
  normTrailing (if ¬ goHasPrefix pattern [slash] = true then slash :: pattern else pattern)

/-! ### Basic facts about the Go string helpers -/

theorem goHasPrefix_iff (s pre : Str) : goHasPrefix s pre = true ↔ pre <+: s := by
  unfold goHasPrefix
  exact List.isPrefixOf_iff_prefix

theorem goHasSuffix_iff (s suf : Str) : goHasSuffix s suf = true ↔ suf <:+ s := by
  unfold goHasSuffix
  exact List.isSuffixOf_iff_suffix

theorem goIndex_isSome_iff (sub : Str) : ∀ s : Str, (goIndex s sub).isSome = true ↔ sub <:+: s := by
  intro s
  induction s with
  | nil =>
    rw [goIndex]
    by_cases h : sub.isPrefixOf ([] : Str)
    · have hp : sub = [] := List.prefix_nil.mp (List.isPrefixOf_iff_prefix.mp h)
      rw [if_pos h]
      simp [hp]
    · rw [if_neg h]
      simp only [Option.isSome_none, Bool.false_eq_true, List.infix_nil, false_iff]
      intro hh
      subst hh
      exact h (List.isPrefixOf_iff_prefix.mpr List.nil_prefix)
  | cons c t ih =>
    rw [goIndex]
    by_cases h : sub.isPrefixOf (c :: t)
    · rw [if_pos h]
      simp only [Option.isSome_some, true_iff]
      exact (List.isPrefixOf_iff_prefix.mp h).isInfix
    · rw [if_neg h]
      have hmap : ((goIndex t sub).map (· + 1)).isSome = (goIndex t sub).isSome := by
        cases goIndex t sub <;> rfl
      rw [hmap, ih]
      constructor
      · exact fun hi => List.infix_cons hi
      · intro hi
        rcases List.infix_cons_iff.mp hi with hp | hi2
        · exact absurd (List.isPrefixOf_iff_prefix.mpr hp) h
        · exact hi2

theorem goContains_iff (s sub : Str) : goContains s sub = true ↔ sub <:+: s :=
  goIndex_isSome_iff sub s

theorem goContains_nil_right (s : Str) : goContains s [] = true := by
  rw [goContains_iff]
  exact ⟨[], s, rfl⟩

theorem containsStar_of_dstar {p : Str} (h : goContains p dstar = true) :
    containsStar p = true := by
  rw [containsStar, goContains_iff]
  exact List.IsInfix.trans (List.IsPrefix.isInfix ⟨[star], rfl⟩) ((goContains_iff p dstar).mp h)

theorem goContains_mono {s t sub : Str} (hst : s <:+: t) (h : goContains s sub = true) :
    goContains t sub = true := by
  rw [goContains_iff] at h ⊢
  exact h.trans hst

theorem goHasSuffix_mono {s t suf : Str} (hst : s <:+ t) (h : goHasSuffix s suf = true) :
    goHasSuffix t suf = true := by
  rw [goHasSuffix_iff] at h ⊢
  exact h.trans hst

theorem goTrimSuffix_prefix_of (s suf : Str) : goTrimSuffix s suf <+: s := by
  unfold goTrimSuffix
  split
  · exact List.take_prefix _ _
  · exact List.prefix_refl _

theorem goTrimPrefix_suffix_of (s pre : Str) : goTrimPrefix s pre <:+ s := by
  unfold goTrimPrefix
  split
  · exact List.drop_suffix _ _
  · exact List.suffix_refl _

theorem goTrimChar_infix_of (s : Str) (c : Char) : goTrimChar s c <:+: s := by
  unfold goTrimChar
  have h1 : List.dropWhile (· = c) s <:+ s := List.dropWhile_suffix _
  have h3 : List.dropWhile (· = c) (List.dropWhile (· = c) s).reverse <:+
      (List.dropWhile (· = c) s).reverse := List.dropWhile_suffix _
  have h4 := List.reverse_prefix.mpr h3
  rw [List.reverse_reverse] at h4
  exact h4.isInfix.trans h1.isInfix

theorem getLastD_of_ne_nil {α : Type} {l : List α} (h : l ≠ []) (d₁ d₂ : α) :
    l.getLastD d₁ = l.getLastD d₂ := by
  rw [List.getLastD_eq_getLast?, List.getLastD_eq_getLast?]
  rcases Option.isSome_iff_exists.mp (List.getLast?_isSome.mpr h) with ⟨x, hx⟩
  rw [hx]
  rfl

theorem goSplitF_ne_nil (fuel : Nat) (sep s : Str) : goSplitF fuel sep s ≠ [] := by
  cases fuel with
  | zero => simp [goSplitF]
  | succ n =>
    rw [goSplitF]
    cases h : goIndex s sep <;> simp

theorem goSplitF_headD_prefix_of (fuel : Nat) (sep s : Str) :
    (goSplitF fuel sep s).headD [] <+: s := by
  cases fuel with
  | zero => simp [goSplitF]
  | succ n =>
    rw [goSplitF]
    cases h : goIndex s sep with
    | none => simp
    | some i => simpa using List.take_prefix i s

theorem goSplitF_getLastD_suffix_of (fuel : Nat) (sep : Str) :
    ∀ s, (goSplitF fuel sep s).getLastD [] <:+ s := by
  induction fuel with
  | zero =>
    intro s
    simp [goSplitF]
  | succ n ih =>
    intro s
    rw [goSplitF]
    cases h : goIndex s sep with
    | none => simp
    | some i =>
      have hne := goSplitF_ne_nil n sep (s.drop (i + sep.length))
      rw [List.getLastD_cons, getLastD_of_ne_nil hne _ []]
      exact (ih _).trans (List.drop_suffix _ _)

theorem goSplitF_mem_infix_of (fuel : Nat) (sep : Str) :
    ∀ s x, x ∈ goSplitF fuel sep s → x <:+: s := by
  induction fuel with
  | zero =>
    intro s x hx
    simp [goSplitF] at hx
    subst hx
    exact List.infix_refl _
  | succ n ih =>
    intro s x hx
    rw [goSplitF] at hx
    cases h : goIndex s sep with
    | none =>
      rw [h] at hx
      simp at hx
      subst hx
      exact List.infix_refl _
    | some i =>
      rw [h] at hx
      rcases List.mem_cons.mp hx with he | hm
      · subst he
        exact (List.take_prefix _ _).isInfix
      · exact (ih _ _ hm).trans (List.drop_suffix _ _).isInfix

theorem goSplit_headD_prefix_of (sep s : Str) : (goSplit sep s).headD [] <+: s :=
  goSplitF_headD_prefix_of _ _ _

theorem goSplit_getLastD_suffix_of (sep s : Str) : (goSplit sep s).getLastD [] <:+ s :=
  goSplitF_getLastD_suffix_of _ _ _

theorem goSplit_mem_infix_of {sep s x : Str} (h : x ∈ goSplit sep s) : x <:+: s :=
  goSplitF_mem_infix_of _ _ _ _ h

theorem goSplit_length_ge_two {sep s : Str} (h : goContains s sep = true) :
    2 ≤ (goSplit sep s).length := by
  rw [goContains] at h
  rcases Option.isSome_iff_exists.mp h with ⟨i, hi⟩
  unfold goSplit
  rw [goSplitF, hi]
  have hne := goSplitF_ne_nil s.length sep (s.drop (i + sep.length))
  have := List.length_pos.mpr hne
  simp only [List.length_cons]
  omega

/-! ### Double-wildcard decomposition of a pattern -/

/-- The `Split(pattern, "**")` parts used by `matchWithDoubleWildcard`. -/
def dwParts (pattern : Str) : List Str := goSplit dstar pattern

/-- The literal `matchWithDoubleWildcard` anchors at the start of the path:
the part before the first `**`, with its trailing `/` trimmed. -/
def dwLeftLiteral (pattern : Str) : Str :=
  goTrimSuffix ((dwParts pattern).headD []) [slash]

/-- The literal `matchWithDoubleWildcard` anchors at the end of the path:
the part after the last `**`, with its leading `/` trimmed. -/
def dwRightLiteral (pattern : Str) : Str :=
  goTrimPrefix ((dwParts pattern).getLastD []) [slash]

/-- The interior literals between consecutive `**` occurrences, each trimmed
of surrounding slashes. -/
def dwInteriorLiterals (pattern : Str) : List Str :=
  (((dwParts pattern).drop 1).dropLast).map fun part => goTrimChar part slash

/-- Modelled from the spec sentence "the path must ... contain each interior
literal in order": find each literal strictly after the end of the previous
literal's leftmost match (greedy leftmost search, which is complete for
ordered containment). -/
def containsInOrder (path : Str) : List Str → Bool
  | [] => true
  | lit :: rest =>
    match goIndex path lit with
    | none => false
    | some i => containsInOrder (path.drop (i + lit.length)) rest

theorem dwPrefixStep_sound {p0 path path1 : Str} (h : dwPrefixStep p0 path = some path1) :
    (goTrimSuffix p0 [slash] ≠ [] → goHasPrefix path (goTrimSuffix p0 [slash]) = true) ∧
      path1 <:+ path := by
  unfold dwPrefixStep at h
  by_cases hp0 : p0 = []
  · rw [if_pos hp0] at h
    cases h
    refine ⟨?_, List.suffix_refl _⟩
    intro hne
    exact absurd (by subst hp0; rfl) hne
  · rw [if_neg hp0] at h
    by_cases hcond : goTrimSuffix p0 [slash] ≠ [] ∧ ¬ goHasPrefix path (goTrimSuffix p0 [slash]) = true
    · rw [if_pos hcond] at h
      cases h
    · rw [if_neg hcond] at h
      cases h
      refine ⟨?_, goTrimPrefix_suffix_of _ _⟩
      intro hne
      by_cases hhp : goHasPrefix path (goTrimSuffix p0 [slash]) = true
      · exact hhp
      · exact absurd ⟨hne, hhp⟩ hcond

theorem dwSuffixStep_sound {pl path1 path2 : Str} (h : dwSuffixStep pl path1 = some path2) :
    (goTrimPrefix pl [slash] ≠ [] → goHasSuffix path1 (goTrimPrefix pl [slash]) = true) ∧
      path2 <:+: path1 := by
  unfold dwSuffixStep at h
  by_cases hpl : pl = []
  · rw [if_pos hpl] at h
    cases h
    refine ⟨?_, List.infix_refl _⟩
    intro hne
    exact absurd (by subst hpl; rfl) hne
  · rw [if_neg hpl] at h
    by_cases hcond : goTrimPrefix pl [slash] ≠ [] ∧ ¬ goHasSuffix path1 (goTrimPrefix pl [slash]) = true
    · rw [if_pos hcond] at h
      cases h
    · rw [if_neg hcond] at h
      cases h
      refine ⟨?_, (goTrimSuffix_prefix_of _ _).isInfix⟩
      intro hne
      by_cases hhs : goHasSuffix path1 (goTrimPrefix pl [slash]) = true
      · exact hhs
      · exact absurd ⟨hne, hhs⟩ hcond

theorem dwMiddles_sound {mids : List Str} {path2 : Str} (h : dwMiddles mids path2 = true) :
    ∀ part ∈ mids, goContains path2 (goTrimChar part slash) = true := by
  intro part hp
  have hall := (List.all_eq_true.mp h) part hp
  rcases Bool.or_eq_true_iff.mp hall with he | hc
  · have hpe : part = [] := by simpa using he
    subst hpe
    exact goContains_nil_right _
  · exact hc

/-- C4 (amended): for every pattern containing `**` and every path, a
successful `MatchPattern` forces the path to start with the literal before
the first `**`, end (after the prefix is stripped, hence also as a plain
suffix) with the literal after the last `**`, and contain every interior
literal — each checked independently by substring containment, with no
ordering requirement between consecutive interior literals. -/
theorem c4_double_wildcard_containment (pattern path : Str)
    (hss : goContains pattern dstar = true)
    (hm : MatchPattern pattern path = true) :
    (dwLeftLiteral pattern ≠ [] → goHasPrefix path (dwLeftLiteral pattern) = true) ∧
    (dwRightLiteral pattern ≠ [] → goHasSuffix path (dwRightLiteral pattern) = true) ∧
    (∀ lit ∈ dwInteriorLiterals pattern, goContains path lit = true) := by
  by_cases heq : pattern = path
  · subst heq
    refine ⟨?_, ?_, ?_⟩
    · intro _
      rw [goHasPrefix_iff]
      exact (goTrimSuffix_prefix_of _ _).trans (goSplit_headD_prefix_of _ _)
    · intro _
      rw [goHasSuffix_iff]
      exact (goTrimPrefix_suffix_of _ _).trans (goSplit_getLastD_suffix_of _ _)
    · intro lit hlit
      rw [dwInteriorLiterals] at hlit
      rcases List.mem_map.mp hlit with ⟨part, hpart, rfl⟩
      have h1 : part ∈ dwParts pattern :=
        List.Sublist.mem (List.Sublist.mem hpart (List.dropLast_sublist _))
          (List.drop_sublist 1 _)
      rw [goContains_iff]
      exact (goTrimChar_infix_of _ _).trans (goSplit_mem_infix_of h1)
  · have hcs : containsStar pattern = true := containsStar_of_dstar hss
    rw [MatchPattern, if_neg heq, if_neg (by simp [hcs]), if_pos hss] at hm
    simp only [matchWithDoubleWildcard] at hm
    have hlen : ¬ ((goSplit dstar pattern).length = 1) := by
      have := goSplit_length_ge_two hss
      omega
    rw [if_neg hlen] at hm
    cases hps : dwPrefixStep ((goSplit dstar pattern).headD []) path with
    | none =>
      rw [hps] at hm
      simp at hm
    | some path1 =>
      rw [hps] at hm
      dsimp only at hm
      cases hsfx : dwSuffixStep ((goSplit dstar pattern).getLastD []) path1 with
      | none =>
        rw [hsfx] at hm
        simp at hm
      | some path2 =>
        rw [hsfx] at hm
        dsimp only at hm
        obtain ⟨hpre, hp1⟩ := dwPrefixStep_sound hps
        obtain ⟨hsuf, hp2⟩ := dwSuffixStep_sound hsfx
        refine ⟨hpre, ?_, ?_⟩
        · intro hne
          exact goHasSuffix_mono hp1 (hsuf hne)
        · intro lit hlit
          rw [dwInteriorLiterals] at hlit
          rcases List.mem_map.mp hlit with ⟨part, hpart, rfl⟩
          have h2 := dwMiddles_sound hm part hpart
          exact goContains_mono (hp2.trans hp1.isInfix) h2

/-- C4 counterexample: `MatchPattern("/a/**/b/**/c/**/d", "/a/c/b/d")`
returns true although the interior literals `b`, `c` do not occur in the
path in pattern order (the only `c` precedes the only `b`), refuting the
claim's "contains each interior literal in order". -/
theorem c4_counterexample :
    MatchPattern (strOf "/a/**/b/**/c/**/d") (strOf "/a/c/b/d") = true ∧
    containsInOrder (strOf "/a/c/b/d") (dwInteriorLiterals (strOf "/a/**/b/**/c/**/d")) = false := by
  constructor
  · decide
  · decide

/-- C4 witness: the amended containment theorem applied at a concrete
double-wildcard pattern and matching path. -/
theorem c4_witness :
    (goContains (strOf "/api/**/users") dstar = true) ∧
    (MatchPattern (strOf "/api/**/users") (strOf "/api/v1/users") = true) ∧
    ((dwLeftLiteral (strOf "/api/**/users") ≠ [] →
        goHasPrefix (strOf "/api/v1/users") (dwLeftLiteral (strOf "/api/**/users")) = true) ∧
      (dwRightLiteral (strOf "/api/**/users") ≠ [] →
        goHasSuffix (strOf "/api/v1/users") (dwRightLiteral (strOf "/api/**/users")) = true) ∧
      (∀ lit ∈ dwInteriorLiterals (strOf "/api/**/users"),
        goContains (strOf "/api/v1/users") lit = true)) :=
  ⟨by decide, by decide,
    c4_double_wildcard_containment (strOf "/api/**/users") (strOf "/api/v1/users")
      (by decide) (by decide)⟩

/-- C5: `GetPatternPriority` violates the non-negativity floor: the
double-wildcard branch returns `300 − 50·(#dstar) − 20·(#extra stars)`
without passing through the floor, giving −50 on a seven-`**` pattern, and
the floor itself replaces only strictly negative values, letting a
single-wildcard pattern evaluate to 0 < 1. -/
theorem c5_priority_floor_violated :
    GetPatternPriority (strOf "/**/**/**/**/**/**/**") = -50 ∧
    GetPatternPriority (strOf "/a/*/*/*/*/*/b") = 0 := by
  constructor
  · decide
  · decide

/-! ### C6: NormalizePattern idempotence -/

theorem goTrimSuffix_of_append (t suf : Str) : goTrimSuffix (t ++ suf) suf = t := by
  unfold goTrimSuffix
  rw [if_pos (List.isSuffixOf_iff_suffix.mpr ⟨t, rfl⟩)]
  simp [List.take_left]

theorem goHasPrefix_cons_slash (r : Str) : goHasPrefix (slash :: r) [slash] = true := by
  rw [goHasPrefix_iff]
  exact ⟨r, rfl⟩

/-- `NormalizePattern` is the identity on a pattern that already starts with
`/` and either is the root or has no trailing slash. -/
theorem NormalizePattern_fix {q : Str} (hpre : goHasPrefix q [slash] = true)
    (hcase : q = [slash] ∨ goHasSuffix q [slash] = false) :
    NormalizePattern q = q := by
  rw [NormalizePattern, if_neg (by simp [hpre]), normTrailing]
  rcases hcase with rfl | hns
  · rw [if_neg (by simp)]
  · rw [if_neg (by simp [hns])]

/-- The result of `NormalizePattern` always starts with `/`. -/
theorem NormalizePattern_startsWith (p : Str) :
    goHasPrefix (NormalizePattern p) [slash] = true := by
  rw [NormalizePattern]
  set p1 := if ¬ goHasPrefix p [slash] = true then slash :: p else p with hp1
  have hpre1 : ∃ r, p1 = slash :: r := by
    by_cases hp : goHasPrefix p [slash] = true
    · rw [hp1, if_neg (by simp [hp])]
      rcases (goHasPrefix_iff p [slash]).mp hp with ⟨t, ht⟩
      exact ⟨t, ht.symm⟩
    · rw [hp1, if_pos (by simp [hp])]
      exact ⟨p, rfl⟩
  rcases hpre1 with ⟨r, hr⟩
  rw [normTrailing]
  by_cases hc : p1.length > 1 ∧ goHasSuffix p1 [slash] = true
  · rw [if_pos hc]
    rcases (goHasSuffix_iff _ _).mp hc.2 with ⟨t, ht⟩
    rw [← ht, goTrimSuffix_of_append]
    cases t with
    | nil =>
      exfalso
      have hlen := hc.1
      rw [← ht] at hlen
      simp at hlen
    | cons c ts =>
      have hct : (c :: ts) ++ [slash] = slash :: r := by rw [ht, hr]
      have hcs : c = slash := by
        simpa using congrArg (fun l => l.headD ' ') hct
      subst hcs
      exact goHasPrefix_cons_slash ts
  · rw [if_neg hc, hr]
    exact goHasPrefix_cons_slash r

/-- Under the no-double-trailing-slash hypothesis, the result of
`NormalizePattern` is the root or has no trailing slash. -/
theorem NormalizePattern_trailing (p : Str) (h : goHasSuffix p [slash, slash] = false) :
    NormalizePattern p = [slash] ∨ goHasSuffix (NormalizePattern p) [slash] = false := by
  rw [NormalizePattern]
  set p1 := if ¬ goHasPrefix p [slash] = true then slash :: p else p with hp1
  have hp1cases : p1 = p ∨ (p1 = slash :: p ∧ goHasPrefix p [slash] = false) := by
    by_cases hp : goHasPrefix p [slash] = true
    · left
      rw [hp1, if_neg (by simp [hp])]
    · right
      refine ⟨by rw [hp1, if_pos (by simp [hp])], ?_⟩
      simpa using hp
  rw [normTrailing]
  by_cases hc : p1.length > 1 ∧ goHasSuffix p1 [slash] = true
  · rw [if_pos hc]
    rcases (goHasSuffix_iff _ _).mp hc.2 with ⟨t, ht⟩
    rw [← ht, goTrimSuffix_of_append]
    right
    cases hgt : goHasSuffix t [slash] with
    | false => rfl
    | true =>
      exfalso
      rcases (goHasSuffix_iff _ _).mp hgt with ⟨u, hu⟩
      have hup1 : u ++ [slash, slash] = p1 := by
        rw [← ht, ← hu]
        simp
      rcases hp1cases with heq | ⟨heq, hnp⟩
      · have hps : goHasSuffix p [slash, slash] = true := by
          rw [goHasSuffix_iff]
          exact ⟨u, by rw [hup1, heq]⟩
        simp [h] at hps
      · rw [heq] at hup1
        cases u with
        | nil =>
          have hpv : p = [slash] := by
            have h2 := hup1.symm
            simpa using h2
          have hone := goHasPrefix_cons_slash ([] : Str)
          rw [hpv] at hnp
          simp [hone] at hnp
        | cons c us =>
          have hpv : p = us ++ [slash, slash] := by
            have h2 := (congrArg List.tail hup1).symm
            simpa using h2
          have hps : goHasSuffix p [slash, slash] = true := by
            rw [goHasSuffix_iff]
            exact ⟨us, hpv.symm⟩
          simp [h] at hps
  · rw [if_neg hc]
    cases hgs : goHasSuffix p1 [slash] with
    | false =>
      right
      rfl
    | true =>
      left
      have hlen : ¬ p1.length > 1 := fun hl => hc ⟨hl, hgs⟩
      rcases (goHasSuffix_iff _ _).mp hgs with ⟨t, ht⟩
      have htn : t = [] := by
        cases t with
        | nil => rfl
        | cons a b =>
          exfalso
          apply hlen
          have hlt := congrArg List.length ht
          simp at hlt
          omega
      subst htn
      rw [← ht]
      rfl

/-- C6 (amended): `NormalizePattern` is idempotent on every pattern that
does not end in two (or more) consecutive slashes; each application removes
at most one trailing slash. -/
theorem c6_normalize_idempotent (p : Str)
    (h : goHasSuffix p [slash, slash] = false) :
    NormalizePattern (NormalizePattern p) = NormalizePattern p :=
  NormalizePattern_fix (NormalizePattern_startsWith p) (NormalizePattern_trailing p h)

/-- C6 counterexample: on "/a//" (two trailing slashes) one application
yields "/a/" and a second yields "/a", so the function is not idempotent. -/
theorem c6_counterexample :
    NormalizePattern (NormalizePattern (strOf "/a//")) ≠ NormalizePattern (strOf "/a//") := by
  decide

/-- C6 witness: idempotence instantiated at the concrete pattern
"/api/users/". -/
theorem c6_witness :
    goHasSuffix (strOf "/api/users/") [slash, slash] = false ∧
    NormalizePattern (NormalizePattern (strOf "/api/users/")) =
      NormalizePattern (strOf "/api/users/") :=
  ⟨by decide, c6_normalize_idempotent (strOf "/api/users/") (by decide)⟩

/-! ### Go map operations on association lists -/

/-- Go map read `m[k]` on an association list. -/
def lookupStr {β : Type} : List (String × β) → String → Option β
  | [], _ => none
  | kv :: rest, k => if kv.1 = k then some kv.2 else lookupStr rest k

/-- Go map assignment `m[k] = v` on an association list: replace the
existing binding, or append a new one. -/
def mapAssign {β : Type} (m : List (String × β)) (k : String) (v : β) :
    List (String × β) :=
  if m.any (fun kv => kv.1 = k) then
    m.map (fun kv => if kv.1 = k then (k, v) else kv)
  else m ++ [(k, v)]

theorem lookupStr_append_right {β : Type} (m : List (String × β)) (k : String) (v : β)
    (h : ∀ kv ∈ m, kv.1 ≠ k) : lookupStr (m ++ [(k, v)]) k = some v := by
  induction m with
  | nil => simp [lookupStr]
  | cons kv rest ih =>
    have hk : kv.1 ≠ k := h kv (List.mem_cons_self _ _)
    simp only [List.cons_append, lookupStr, if_neg hk]
    exact ih fun kv' hkv' => h kv' (List.mem_cons_of_mem _ hkv')

theorem lookupStr_append_single_ne {β : Type} (m : List (String × β)) (k k' : String)
    (v : β) (h : k ≠ k') : lookupStr (m ++ [(k', v)]) k = lookupStr m k := by
  induction m with
  | nil => simp [lookupStr, Ne.symm h]
  | cons kv rest ih =>
    simp only [List.cons_append, lookupStr]
    by_cases hbe : kv.1 = k
    · simp [hbe]
    · simp only [if_neg hbe]
      exact ih

theorem lookupStr_overwrite_self {β : Type} (m : List (String × β)) (k : String) (v : β)
    (hany : m.any (fun kv => kv.1 = k) = true) :
    lookupStr (m.map (fun kv => if kv.1 = k then (k, v) else kv)) k = some v := by
  induction m with
  | nil => simp at hany
  | cons kv rest ih =>
    by_cases hk : kv.1 = k
    · simp [lookupStr, hk]
    · simp only [List.map_cons, if_neg hk, lookupStr, if_neg hk]
      apply ih
      rcases List.any_eq_true.mp hany with ⟨kv', hkv', hkv'e⟩
      rcases List.mem_cons.mp hkv' with rfl | hmem
      · exact absurd (by simpa using hkv'e) hk
      · exact List.any_eq_true.mpr ⟨kv', hmem, hkv'e⟩

theorem lookupStr_overwrite_ne {β : Type} (m : List (String × β)) (k k' : String) (v : β)
    (h : k ≠ k') :
    lookupStr (m.map (fun kv => if kv.1 = k' then (k', v) else kv)) k = lookupStr m k := by
  induction m with
  | nil => rfl
  | cons kv rest ih =>
    by_cases hk : kv.1 = k'
    · simp only [List.map_cons, if_pos hk, lookupStr]
      rw [if_neg (Ne.symm h), if_neg (fun he => h (he.symm.trans hk))]
      exact ih
    · simp only [List.map_cons, if_neg hk, lookupStr]
      by_cases hbe : kv.1 = k
      · simp [hbe]
      · simp only [if_neg hbe]
        exact ih

theorem lookupStr_mapAssign_self {β : Type} (m : List (String × β)) (k : String) (v : β) :
    lookupStr (mapAssign m k v) k = some v := by
  unfold mapAssign
  by_cases hany : m.any (fun kv => kv.1 = k) = true
  · rw [if_pos hany]
    exact lookupStr_overwrite_self m k v hany
  · rw [if_neg hany]
    apply lookupStr_append_right
    intro kv hkv hke
    exact hany (List.any_eq_true.mpr ⟨kv, hkv, by simp [hke]⟩)

theorem lookupStr_mapAssign_ne {β : Type} (m : List (String × β)) (k k' : String) (v : β)
    (h : k ≠ k') : lookupStr (mapAssign m k' v) k = lookupStr m k := by
  unfold mapAssign
  by_cases hany : m.any (fun kv => kv.1 = k') = true
  · rw [if_pos hany]
    exact lookupStr_overwrite_ne m k k' v h
  · rw [if_neg hany]
    exact lookupStr_append_single_ne m k k' v h

theorem lookupStr_filter_ne {β : Type} (m : List (String × β)) (k : String) :
    lookupStr (m.filter (fun kv => kv.1 ≠ k)) k = none := by
  induction m with
  | nil => rfl
  | cons kv rest ih =>
    by_cases hk : kv.1 = k
    · simpa [List.filter_cons, hk] using ih
    · simpa [List.filter_cons, hk, lookupStr] using ih

theorem keys_mapAssign_nodup {β : Type} (m : List (String × β)) (k : String) (v : β)
    (h : (m.map Prod.fst).Nodup) : ((mapAssign m k v).map Prod.fst).Nodup := by
  unfold mapAssign
  by_cases hany : m.any (fun kv => kv.1 = k) = true
  · rw [if_pos hany]
    have hkeys : (m.map (fun kv => if kv.1 = k then (k, v) else kv)).map Prod.fst =
        m.map Prod.fst := by
      rw [List.map_map]
      apply List.map_congr_left
      intro kv _
      by_cases hk : kv.1 = k
      · simp [hk]
      · simp [hk]
    rw [hkeys]
    exact h
  · rw [if_neg hany]
    rw [List.map_append]
    apply List.Nodup.append h (by simp)
    intro a ha hb
    simp at hb
    subst hb
    rcases List.mem_map.mp ha with ⟨kv, hkv, hke⟩
    exact hany (List.any_eq_true.mpr ⟨kv, hkv, by simp [hke]⟩)

/-! ### C1: the connection registry (part_001 registerClient / unregisterClient) -/

/-- A live agent connection, identified by `connID`; `cancelled` records
whether its context's `cancel` has been invoked. -/
structure ClientConn where
  connID : Nat
  cancelled : Bool
deriving DecidableEq, Repr

/-- The manager's `clients` table (`client_id → connection`), a Go map. -/
structure ManagerClients where
  clients : List (String × ClientConn)
deriving DecidableEq, Repr

/-- `Manager.registerClient`: `m.clients[client.clientID] = client` plus
statistics and per-connection heartbeat initialisation. The second
component lists the connections whose `cancel` this call invokes — the
source body contains no cancel call, so it is always empty. -/
def registerClient (s : ManagerClients) (clientID : String) (c : ClientConn) :
    ManagerClients × List Nat :=
  ({ clients := mapAssign s.clients clientID c }, [])

/-- `Manager.unregisterClient`: `delete(m.clients, clientID)`; the
asynchronous offline-status write goes to the worker pool and does not
touch the table. -/
def unregisterClient (s : ManagerClients) (clientID : String) : ManagerClients :=
  { clients := s.clients.filter (fun kv => kv.1 ≠ clientID) }

/-- C1 (amended): a second register for a `client_id` that already has a
live connection overwrites the table entry — the table still maps the id
to (at most) one record, now the new connection — but the prior connection
is not cancelled by the register; and a later `unregisterClient` for the
same id (run by the prior connection's deferred cleanup when its loops
exit) deletes the new connection's entry. -/
theorem c1_register_overwrites_without_cancel (s : ManagerClients) (clientID : String)
    (prior c : ClientConn) (hnd : (s.clients.map Prod.fst).Nodup)
    (hprior : lookupStr s.clients clientID = some prior) :
    ((registerClient s clientID c).1.clients.map Prod.fst).Nodup ∧
    lookupStr (registerClient s clientID c).1.clients clientID = some c ∧
    (registerClient s clientID c).2 = [] ∧
    lookupStr (unregisterClient (registerClient s clientID c).1 clientID).clients
      clientID = none :=
  ⟨keys_mapAssign_nodup _ _ _ hnd, lookupStr_mapAssign_self _ _ _, rfl,
    lookupStr_filter_ne _ _⟩

/-- C1 counterexample: with a live connection ⟨1, false⟩ registered for
"client-1", registering a new connection ⟨2, false⟩ for the same id cancels
nothing — the cancel list is empty and connection 1 is not in it —
refuting "the prior connection is cancelled before the new connection is
inserted". -/
theorem c1_counterexample :
    lookupStr (ManagerClients.mk [("client-1", ⟨1, false⟩)]).clients "client-1" =
      some ⟨1, false⟩ ∧
    ¬ (1 ∈ (registerClient (ManagerClients.mk [("client-1", ⟨1, false⟩)])
        "client-1" ⟨2, false⟩).2) := by
  constructor
  · decide
  · simp [registerClient]

/-- C1 witness: the amended register/unregister behaviour at a concrete
two-connection scenario. -/
theorem c1_witness :
    (((ManagerClients.mk [("client-1", ⟨1, false⟩)]).clients.map Prod.fst).Nodup ∧
      lookupStr (ManagerClients.mk [("client-1", ⟨1, false⟩)]).clients "client-1" =
        some ⟨1, false⟩) ∧
    (((registerClient (ManagerClients.mk [("client-1", ⟨1, false⟩)]) "client-1"
          ⟨2, false⟩).1.clients.map Prod.fst).Nodup ∧
      lookupStr (registerClient (ManagerClients.mk [("client-1", ⟨1, false⟩)])
          "client-1" ⟨2, false⟩).1.clients "client-1" = some ⟨2, false⟩ ∧
      (registerClient (ManagerClients.mk [("client-1", ⟨1, false⟩)]) "client-1"
          ⟨2, false⟩).2 = [] ∧
      lookupStr (unregisterClient (registerClient
          (ManagerClients.mk [("client-1", ⟨1, false⟩)]) "client-1" ⟨2, false⟩).1
          "client-1").clients "client-1" = none) :=
  ⟨⟨by decide, by decide⟩,
    c1_register_overwrites_without_cancel _ "client-1" ⟨1, false⟩ ⟨2, false⟩
      (by decide) (by decide)⟩

/-! ### C2: request forwarding and the timeout status
(part_002 forwardRequestToClient; request.go SendRequestAndWait) -/

/-- The wire RESPONSE payload (protocol package). -/
structure ResponsePayload where
  httpStatus : Nat
  headers : List (String × String)
  body : String
  error : Option String
deriving DecidableEq, Repr

/-- Database pending-message states. -/
inductive MessageState
  | pending
  | processing
  | done
  | failed
deriving DecidableEq, Repr

inductive SendError
  | notConnected
  | sendFailed
  | timedOut
  | nilResponse
deriving DecidableEq, Repr

/-- `Manager.SendRequestAndWait` (request.go): check the connection, send
the REQUEST frame, then `select` on the result channel against the 30 s
context. `arrival` is what the select observes: `none` = the deadline
fires first; `some none` = a nil payload from the channel; `some (some r)`
= response `r`. Second component: the state this code path writes to the
pending-message row (`none` = no write here). -/
def sendRequestAndWait (connected sendOk : Bool)
    (arrival : Option (Option ResponsePayload)) :
    Except SendError ResponsePayload × Option MessageState :=
  if ¬ connected then (.error .notConnected, none)
  else if ¬ sendOk then (.error .sendFailed, none)
  else
    match arrival with
    | some (some r) => (.ok r, none)
    | some none => (.error .nilResponse, none)
    | none => (.error .timedOut, some .failed)

/-- The synthetic timeout response `Manager.CleanupExpiredPending` places in
a stale entry's result slot (request.go: status 504, "Request timeout"). -/
def sweepTimeoutResponse : ResponsePayload :=
  { httpStatus := 504, headers := [], body := "", error := some "Request timeout" }

/-- The HTTP status `forwardRequestToClient` sends the external caller:
every `SendRequestAndWait` error is answered with
`http.Error(w, "Backend request failed", http.StatusBadGateway)` = 502; on
success the response's own status is copied via `WriteHeader`. -/
def forwardStatus (res : Except SendError ResponsePayload) : Nat :=
  match res with
  | .ok r => r.httpStatus
  | .error _ => 502

/-- `Handler.forwardRequestToClient` as seen by the external caller: the
HTTP status written back, and the pending-message state written by the
wait. -/
def forwardRequestToClient (connected sendOk : Bool)
    (arrival : Option (Option ResponsePayload)) : Nat × Option MessageState :=
  let res := sendRequestAndWait connected sendOk arrival
  (forwardStatus res.1, res.2)

/-- C2 (amended): when the agent does not deliver a RESPONSE before the
deadline, `SendRequestAndWait` marks the pending entry failed and returns
an error, and `forwardRequestToClient` answers the caller with 502 — the
same status as a REQUEST-frame send failure, not 504. A 504 reaches the
caller only as an ordinary response status, e.g. when the cleanup sweep
resolves the entry with its synthetic 504 payload before the deadline
fires. -/
theorem c2_timeout_maps_to_502 :
    forwardRequestToClient true true none = (502, some MessageState.failed) ∧
    (∀ arrival, forwardRequestToClient true false arrival = (502, none)) ∧
    forwardRequestToClient true true (some (some sweepTimeoutResponse)) = (504, none) :=
  ⟨rfl, fun _ => rfl, rfl⟩

/-- C2 counterexample: on a pure timeout (request sent, no response, the
context deadline fires) the proxy answers 502, not the 504 the claim
requires. -/
theorem c2_counterexample :
    (forwardRequestToClient true true none).1 = 502 ∧
    (forwardRequestToClient true true none).1 ≠ 504 := by
  constructor
  · rfl
  · decide

/-! ### C7: malformed JSON frames (part_001 MessageTask.Execute, clientReader) -/

inductive WsFrameType
  | pingFrame
  | pongFrame
  | closeFrame
  | binaryFrame
  | textFrame
deriving DecidableEq, Repr

/-- A parsed protocol envelope: `type` and `op` carry the wire strings
("CONTROL", "MESSAGE", "ACK", "ERROR"; "REGISTER", "PING", ...), per the
shared protocol package. -/
structure ProtoFrame where
  type : String
  op : String
deriving DecidableEq, Repr

inductive ConnEffect
  | keepOpen
  | closeConn
deriving DecidableEq, Repr

inductive ExecAction
  | bookkeeping                    -- ws-level ping/pong/close/binary: log, lastSeen
  | ignoredInvalidJSON             -- json.Unmarshal failed: "Ignoring non-JSON message"
  | handledControl (op : String)
  | handledData (op : String)
  | handledACK
  | handledErrorFrame
  | ignoredUnknownOp (op : String) -- "Unknown ... operation" log line
  | ignoredUnknownType (t : String)
deriving DecidableEq, Repr

structure ExecResult where
  action : ExecAction
  conn : ConnEffect
deriving DecidableEq, Repr

/-- `handleControlMessage` op dispatch (part_000). -/
def handleControlOp (op : String) : ExecAction :=
  if op = "REGISTER" ∨ op = "PONG" ∨ op = "PING" then .handledControl op
  else .ignoredUnknownOp op

/-- `handleDataMessage` op dispatch (part_000). -/
def handleDataOp (op : String) : ExecAction :=
  if op = "REQUEST" ∨ op = "RESPONSE" then .handledData op
  else .ignoredUnknownOp op

/-- `MessageTask.Execute` (part_001): non-text WebSocket frames are
bookkeeping; a text frame is JSON-parsed (`parsed = none` models
`json.Unmarshal` failure, which is logged and ignored with
`result.Success = true`), then dispatched on `msg.Type`. No branch cancels
the connection context. -/
def messageTaskExecute (ft : WsFrameType) (parsed : Option ProtoFrame) : ExecResult :=
  match ft with
  | .pingFrame => ⟨.bookkeeping, .keepOpen⟩
  | .pongFrame => ⟨.bookkeeping, .keepOpen⟩
  | .closeFrame => ⟨.bookkeeping, .keepOpen⟩
  | .binaryFrame => ⟨.bookkeeping, .keepOpen⟩
  | .textFrame =>
    match parsed with
    | none => ⟨.ignoredInvalidJSON, .keepOpen⟩
    | some msg =>
      if msg.type = "CONTROL" then ⟨handleControlOp msg.op, .keepOpen⟩
      else if msg.type = "MESSAGE" then ⟨handleDataOp msg.op, .keepOpen⟩
      else if msg.type = "ACK" then ⟨.handledACK, .keepOpen⟩
      else if msg.type = "ERROR" then ⟨.handledErrorFrame, .keepOpen⟩
      else ⟨.ignoredUnknownType msg.type, .keepOpen⟩

inductive ReadEvent
  | ioError
  | gotFrame (ft : WsFrameType) (parsed : Option ProtoFrame)

/-- `clientReader` (part_001): a `ReadMessage` error cancels the connection
context (tearing the socket down); a successfully read frame is handed to
the worker pool, whose task has the effect above. -/
def clientReaderStep : ReadEvent → ConnEffect
  | .ioError => .closeConn
  | .gotFrame ft parsed => (messageTaskExecute ft parsed).conn

/-- C7 (amended): a text frame with malformed JSON is logged and ignored
and the connection stays open — the same connection effect as a well-formed
frame with an unknown op; no outcome of `MessageTask.Execute` closes the
socket, which is closed only by the read loop on an I/O error. -/
theorem c7_malformed_json_ignored :
    messageTaskExecute .textFrame none = ⟨.ignoredInvalidJSON, .keepOpen⟩ ∧
    messageTaskExecute .textFrame (some ⟨"CONTROL", "FROBNICATE"⟩) =
      ⟨.ignoredUnknownOp "FROBNICATE", .keepOpen⟩ ∧
    (∀ ft parsed, (messageTaskExecute ft parsed).conn = .keepOpen) ∧
    clientReaderStep .ioError = .closeConn := by
  refine ⟨rfl, by decide, ?_, rfl⟩
  intro ft parsed
  cases ft <;> try rfl
  cases parsed with
  | none => rfl
  | some msg =>
    simp only [messageTaskExecute]
    by_cases h1 : msg.type = "CONTROL" <;> simp [h1]
    by_cases h2 : msg.type = "MESSAGE" <;> simp [h2]
    by_cases h3 : msg.type = "ACK" <;> simp [h3]
    by_cases h4 : msg.type = "ERROR" <;> simp [h4]

/-- C7 counterexample: the claim says malformed JSON closes the socket; the
code leaves the connection open (`keepOpen`), treating the frame exactly
like an ignorable message. -/
theorem c7_counterexample :
    (messageTaskExecute .textFrame none).conn = .keepOpen ∧
    (messageTaskExecute .textFrame none).conn ≠ .closeConn := by
  constructor
  · rfl
  · decide

/-! ### C8: agent dial URL vs server upgrade handler
(Agent.connect in the agent package; part_001 HandleWebSocket) -/

structure WebSocketURL where
  scheme : String
  host : String
  port : Nat
  path : String
  query : List (String × String)
deriving DecidableEq, Repr

/-- `Connector.buildWebSocketURL` (connector.go): scheme ws/wss, path
`/ws`, query keys `client_id` and `auth_token`. This path is dead code in
the agent binary: `Connector.Connect` is reachable only from
`startReconnect`, which is never called; the live dial path is
`Agent.connect` below. -/
def buildWebSocketURL (useSSL : Bool) (host : String) (port : Nat)
    (clientID authToken : String) : WebSocketURL :=
  { scheme := if useSSL then "wss" else "ws"
    host := host
    port := port
    path := "/ws"
    query := [("auth_token", authToken), ("client_id", clientID)] }

/-- `Agent.connect` (package agent, the dial path `main.go` →
`agent.NewAgent` → `connectionLoop` → `connectWithRetry` actually runs):
parse the configured server URL, then `q.Set("client_id", …)` and
`q.Set("token", …)` on its query and dial. `base` is the parsed URL's
pre-existing query. -/
def agentConnectQuery (base : List (String × String))
    (clientID authToken : String) : List (String × String) :=
  mapAssign (mapAssign base "client_id" clientID) "token" authToken

/-- `url.Values.Get` / `r.URL.Query().Get`: the value for the key, "" when
absent. -/
def queryGet (q : List (String × String)) (k : String) : String :=
  match lookupStr q k with
  | some v => v
  | none => ""

/-- `Manager.validateToken` (part_001): only the empty token fails. -/
def validateToken (tok : String) : Bool := tok ≠ ""

structure DBClient where
  authToken : String
  enabled : Bool
deriving DecidableEq, Repr

inductive UpgradeOutcome
  | missingClientID          -- 400 "client_id is required"
  | missingToken             -- 401 "token is required"
  | invalidToken             -- 401 "invalid token"
  | clientNotFound           -- 404 "Client not found"
  | authMismatch             -- 401 "Invalid auth token"
  | clientDisabled           -- 403 "Client is disabled"
  | upgraded (clientID : String)
deriving DecidableEq, Repr

/-- `Manager.HandleWebSocket` (part_001): read query parameters `client_id`
and `token`, look the client up, compare the stored auth token with the
`token` parameter, check `enabled`, then upgrade. -/
def handleWebSocketUpgrade (q : List (String × String))
    (db : List (String × DBClient)) : UpgradeOutcome :=
  let clientID := queryGet q "client_id"
  if clientID = "" then .missingClientID
  else
    let token := queryGet q "token"
    if token = "" then .missingToken
    else if ¬ validateToken token then .invalidToken
    else
      match lookupStr db clientID with
      | none => .clientNotFound
      | some c =>
        if c.authToken ≠ token then .authMismatch
        else if ¬ c.enabled then .clientDisabled
        else .upgraded clientID

/-- C8: the URL the agent dials carries the client identifier under query
parameter `client_id` and the shared auth token under query parameter
`token` — exactly the parameter names the server's upgrade handler reads
during the register flow — and against a database holding that client
with that token, enabled, the upgrade succeeds. -/
theorem c8_dial_params_match (base : List (String × String))
    (clientID authToken : String) (db : List (String × DBClient))
    (hcid : clientID ≠ "") (htok : authToken ≠ "")
    (hdb : lookupStr db clientID = some ⟨authToken, true⟩) :
    queryGet (agentConnectQuery base clientID authToken) "client_id" = clientID ∧
    queryGet (agentConnectQuery base clientID authToken) "token" = authToken ∧
    handleWebSocketUpgrade (agentConnectQuery base clientID authToken) db =
      .upgraded clientID := by
  have h1 : queryGet (agentConnectQuery base clientID authToken) "client_id" =
      clientID := by
    unfold agentConnectQuery queryGet
    rw [lookupStr_mapAssign_ne _ _ _ _ (by decide : ("client_id" : String) ≠ "token"),
      lookupStr_mapAssign_self]
  have h2 : queryGet (agentConnectQuery base clientID authToken) "token" =
      authToken := by
    unfold agentConnectQuery queryGet
    rw [lookupStr_mapAssign_self]
  refine ⟨h1, h2, ?_⟩
  simp [handleWebSocketUpgrade, h1, h2, validateToken, hcid, htok, hdb]

/-- C8 witness: client "client-1" with secret "s3cret" against a database
holding exactly that enabled record — both parameter names line up and
the upgrade succeeds. -/
theorem c8_witness :
    (("client-1" : String) ≠ "" ∧ ("s3cret" : String) ≠ "" ∧
      lookupStr [("client-1", (⟨"s3cret", true⟩ : DBClient))] "client-1" =
        some ⟨"s3cret", true⟩) ∧
    (queryGet (agentConnectQuery [] "client-1" "s3cret") "client_id" = "client-1" ∧
      queryGet (agentConnectQuery [] "client-1" "s3cret") "token" = "s3cret" ∧
      handleWebSocketUpgrade (agentConnectQuery [] "client-1" "s3cret")
        [("client-1", ⟨"s3cret", true⟩)] = .upgraded "client-1") :=
  ⟨⟨by decide, by decide, by decide⟩,
    c8_dial_params_match [] "client-1" "s3cret" [("client-1", ⟨"s3cret", true⟩)]
      (by decide) (by decide) (by decide)⟩

/-! ### C9: header copying in forwardRequestToClient (part_002) -/

/-- A route record as the proxy reads it (database.ServerRoute). -/
structure ServerRoute where
  urlSuffix : Str
  clientID : String
  targetsJSON : String
  deliveryPolicy : String
  routeMode : String
  enabled : Bool
deriving DecidableEq, Repr

/-- The wire REQUEST payload (protocol package), as filled in by
`forwardRequestToClient`. -/
structure RequestPayload where
  httpMethod : String
  urlSuffix : Str
  headers : List (String × String)
  body : String
  targetsJSON : String
  deliveryPolicy : String
  routeMode : String
deriving DecidableEq, Repr

/-- The header-copy loop of `forwardRequestToClient`:
`for name, values := range r.Header { if len(values) > 0 {
Headers[name] = values[0] } }` — the first value only. -/
def copyHeaders : List (String × List String) → List (String × String)
  | [] => []
  | nv :: rest =>
    match nv.2 with
    | [] => copyHeaders rest
    | v :: _ => (nv.1, v) :: copyHeaders rest

/-- `forwardRequestToClient` building the REQUEST payload from the inbound
HTTP request and the selected route (part_002 lines 196–213). -/
def buildRequestPayload (method : String) (urlPath : Str)
    (hdr : List (String × List String)) (body : String) (route : ServerRoute) :
    RequestPayload :=
  { httpMethod := method
    urlSuffix := urlPath
    headers := copyHeaders hdr
    body := body
    targetsJSON := route.targetsJSON
    deliveryPolicy := route.deliveryPolicy
    routeMode := route.routeMode }

theorem lookupStr_eq_none_of_not_mem_keys {β : Type} {m : List (String × β)} {k : String}
    (h : k ∉ m.map Prod.fst) : lookupStr m k = none := by
  induction m with
  | nil => rfl
  | cons kv rest ih =>
    simp only [List.map_cons, List.mem_cons, not_or] at h
    rw [lookupStr, if_neg (fun he => h.1 he.symm)]
    exact ih h.2

theorem copyHeaders_keys_sub {hdr : List (String × List String)} {k : String}
    (h : k ∈ (copyHeaders hdr).map Prod.fst) : k ∈ hdr.map Prod.fst := by
  induction hdr with
  | nil => simpa [copyHeaders] using h
  | cons nv rest ih =>
    cases hvs : nv.2 with
    | nil =>
      simp only [copyHeaders, hvs] at h
      simp only [List.map_cons]
      exact List.mem_cons_of_mem _ (ih h)
    | cons v vrest =>
      simp only [copyHeaders, hvs] at h
      simp only [List.map_cons, List.mem_cons] at h ⊢
      rcases h with he | hm
      · exact Or.inl he
      · exact Or.inr (ih hm)

/-- C9: for every inbound header, the REQUEST payload holds exactly the
first value; all further values of a multi-valued header are dropped and
never reach the agent. -/
theorem c9_first_header_value_only (method : String) (urlPath : Str)
    (hdr : List (String × List String)) (body : String) (route : ServerRoute)
    (hnd : (hdr.map Prod.fst).Nodup) (name : String) (values : List String)
    (hmem : (name, values) ∈ hdr) :
    lookupStr (buildRequestPayload method urlPath hdr body route).headers name =
      values.head? := by
  show lookupStr (copyHeaders hdr) name = values.head?
  induction hdr with
  | nil => cases hmem
  | cons nv rest ih =>
    have hnd' : (rest.map Prod.fst).Nodup := (List.nodup_cons.mp hnd).2
    have hnotin : nv.1 ∉ rest.map Prod.fst := (List.nodup_cons.mp hnd).1
    rcases List.mem_cons.mp hmem with he | hm
    · have h1 : nv.1 = name := by rw [← he]
      have h2 : nv.2 = values := by rw [← he]
      cases hvs : values with
      | nil =>
        have hnone : lookupStr (copyHeaders rest) name = none :=
          lookupStr_eq_none_of_not_mem_keys
            (fun hc => hnotin (h1 ▸ copyHeaders_keys_sub hc))
        simp only [copyHeaders, h2, hvs]
        simpa using hnone
      | cons v vrest =>
        simp only [copyHeaders, h2, hvs, lookupStr, if_pos h1]
        simp
    · have hne : nv.1 ≠ name := by
        intro he
        apply hnotin
        rw [he]
        exact List.mem_map.mpr ⟨(name, values), hm, rfl⟩
      cases hvs : nv.2 with
      | nil =>
        simp only [copyHeaders, hvs]
        exact ih hnd' hm
      | cons v vrest =>
        simp only [copyHeaders, hvs, lookupStr, if_neg hne]
        exact ih hnd' hm

/-- C9 witness: a request with a three-valued Accept header and a
single-valued Host header; the payload carries only "text/html". -/
theorem c9_witness :
    ((([("Accept", ["text/html", "application/json", "text/plain"]),
        ("Host", ["example.com"])] : List (String × List String)).map Prod.fst).Nodup ∧
      ("Accept", ["text/html", "application/json", "text/plain"]) ∈
        ([("Accept", ["text/html", "application/json", "text/plain"]),
          ("Host", ["example.com"])] : List (String × List String))) ∧
    lookupStr (buildRequestPayload "GET" (strOf "/api/users")
        [("Accept", ["text/html", "application/json", "text/plain"]),
          ("Host", ["example.com"])] ""
        ⟨strOf "/api/users", "client-1", "http://10.0.0.2:9000", "", "original-path",
          true⟩).headers "Accept" =
      some "text/html" :=
  ⟨⟨by decide, by decide⟩,
    c9_first_header_value_only "GET" (strOf "/api/users") _ ""
      ⟨strOf "/api/users", "client-1", "http://10.0.0.2:9000", "", "original-path", true⟩
      (by decide) "Accept" ["text/html", "application/json", "text/plain"] (by decide)⟩

/-! ### C10: the proxy port's root catch-all (part_002 HandleDirectProxyRequest;
proxy_server.go Start) -/

inductive DirectOutcome
  | notFound                 -- http.NotFound for the reserved paths
  | rootRejected             -- 400 "Root path not allowed"
  | routeNotFound            -- 404 "Route not found"
  | noBackend                -- 503 "No available backend"
  | forwarded (r : ServerRoute)
deriving DecidableEq, Repr

/-- The descending-priority sort of the matched routes (`sort.Slice` with
`GetPatternPriority(i) > GetPatternPriority(j)`; Go's sort is unstable, so
any priority-descending order is a faithful refinement). -/
def sortRoutesByPriority (routes : List ServerRoute) : List ServerRoute :=
  routes.mergeSort fun a b =>
    decide (GetPatternPriority b.urlSuffix ≤ GetPatternPriority a.urlSuffix)

/-- The selection loop: first matched route whose client is connected and
whose client record exists and is enabled. -/
def selectRoute (sorted : List ServerRoute) (connected : List String)
    (clients : List (String × Bool)) : Option ServerRoute :=
  sorted.find? fun r =>
    connected.contains r.clientID && (lookupStr clients r.clientID).getD false

/-- `Handler.HandleDirectProxyRequest` (part_002): reserved paths get
`http.NotFound`; the root is rejected; otherwise routes are filtered by
`MatchPattern` and `enabled`, sorted by priority, and the first live,
enabled client wins. -/
def HandleDirectProxyRequest (path : Str) (routes : List ServerRoute)
    (connected : List String) (clients : List (String × Bool)) : DirectOutcome :=
  if path = strOf "/upload" ∨ path = strOf "/health" ∨ path = strOf "/status" ∨
      goHasPrefix path (strOf "/proxy/") = true then .notFound
  else if path = [slash] then .rootRejected
  else
    let matched := routes.filter fun r => MatchPattern r.urlSuffix path && r.enabled
    if matched.isEmpty then .routeNotFound
    else
      match selectRoute (sortRoutesByPriority matched) connected clients with
      | some r => .forwarded r
      | none => .noBackend

/-- C10: a request whose path is exactly /upload, /health or /status, or
starts with /proxy/, is answered 404 by the direct catch-all before any
route matching happens, for every route table, connection set and client
table — so no such path is ever forwarded through the tunnel. -/
theorem c10_reserved_paths_not_forwarded (path : Str) (routes : List ServerRoute)
    (connected : List String) (clients : List (String × Bool))
    (h : path = strOf "/upload" ∨ path = strOf "/health" ∨ path = strOf "/status" ∨
      goHasPrefix path (strOf "/proxy/") = true) :
    HandleDirectProxyRequest path routes connected clients = .notFound := by
  rw [HandleDirectProxyRequest, if_pos h]

/-- C10 witness: /upload with an enabled route that matches it exactly and
whose client is connected and enabled — still 404. -/
theorem c10_witness :
    ((strOf "/upload") = strOf "/upload" ∨ (strOf "/upload") = strOf "/health" ∨
      (strOf "/upload") = strOf "/status" ∨
      goHasPrefix (strOf "/upload") (strOf "/proxy/") = true) ∧
    HandleDirectProxyRequest (strOf "/upload")
      [⟨strOf "/upload", "client-1", "http://10.0.0.2:9000", "", "original-path", true⟩]
      ["client-1"] [("client-1", true)] = .notFound :=
  ⟨by decide,
    c10_reserved_paths_not_forwarded (strOf "/upload")
      [⟨strOf "/upload", "client-1", "http://10.0.0.2:9000", "", "original-path", true⟩]
      ["client-1"] [("client-1", true)] (by decide)⟩

/-! ### C3: at-most-once resolution in the pending-request table
(request.go SendRequestAndWait; part_000 handleResponse;
part_001 cleanupExpiredPending) -/

inductive WaiterOutcome
  | delivered (r : ResponsePayload)
  | timedOut
deriving DecidableEq, Repr

/-- Per-request waiter state held by a `SendRequestAndWait` call: `slot` is
the buffered single-shot result channel, `ctxDone` whether the request
context has fired (deadline or cancel), `returned` the outcome the waiting
select has terminated with, if it has. -/
structure Waiter where
  slot : Option ResponsePayload
  ctxDone : Bool
  returned : Option WaiterOutcome
deriving DecidableEq, Repr

/-- Manager pending state: `table` is the key set of `m.pending` (what
`handleResponse` can look up), `waiters` the per-msg_id waiter state, which
outlives the table entry because the channel and the context are owned by
the waiting goroutine, not by the map. -/
structure PendingState where
  table : List String
  waiters : List (String × Waiter)
deriving DecidableEq, Repr

inductive PendingEvent
  | register (id : String)                       -- m.pending[msgID] = pending
  | response (id : String) (r : ResponsePayload) -- handleResponse delivers a RESPONSE
  | ctxExpire (id : String)                      -- the 30 s context deadline fires
  | sweep (id : String)                          -- cleanupExpiredPending: cancel + delete
  | finishDelivered (id : String)                -- select takes <-resultCh; defer deletes
  | finishTimeout (id : String)                  -- select takes <-ctx.Done(); defer deletes
deriving DecidableEq, Repr

inductive PendingObs
  | registered (id : String)
  | slotFilled (id : String)       -- resultCh <- payload succeeded
  | droppedNoEntry (id : String)   -- "No pending request found for msgID"
  | droppedSlotFull (id : String)  -- select/default: channel already full
  | waiterDone (id : String) (o : WaiterOutcome)
  | expired (id : String)
  | swept (id : String)
  | noop
deriving DecidableEq, Repr

def initPending : PendingState := ⟨[], []⟩

/-- One interleaving step of the pending machinery. `register` inserts the
entry with an empty slot; `response` mirrors `handleResponse`: look the
msg_id up in `m.pending`, non-blocking send into the slot, drop when the
entry is absent or the slot is full; `sweep` mirrors
`cleanupExpiredPending` (cancel the context, delete the entry); the finish
events mirror the two arms of the `select` in `SendRequestAndWait` — each
can fire only when its channel is ready and the call has not already
returned — followed by the deferred `delete(m.pending, msgID)`. -/
def pendingStep (s : PendingState) : PendingEvent → PendingState × PendingObs
  | .register id =>
    ({ table := if id ∈ s.table then s.table else s.table ++ [id]
       waiters := mapAssign s.waiters id ⟨none, false, none⟩ }, .registered id)
  | .response id r =>
    if id ∈ s.table then
      match lookupStr s.waiters id with
      | some w =>
        match w.slot with
        | none =>
          ({ s with waiters := mapAssign s.waiters id ⟨some r, w.ctxDone, w.returned⟩ },
            .slotFilled id)
        | some _ => (s, .droppedSlotFull id)
      | none => (s, .droppedNoEntry id)
    else (s, .droppedNoEntry id)
  | .ctxExpire id =>
    match lookupStr s.waiters id with
    | some w =>
      ({ s with waiters := mapAssign s.waiters id ⟨w.slot, true, w.returned⟩ },
        .expired id)
    | none => (s, .noop)
  | .sweep id =>
    if id ∈ s.table then
      match lookupStr s.waiters id with
      | some w =>
        ({ table := s.table.filter (· ≠ id)
           waiters := mapAssign s.waiters id ⟨w.slot, true, w.returned⟩ }, .swept id)
      | none => ({ s with table := s.table.filter (· ≠ id) }, .swept id)
    else (s, .noop)
  | .finishDelivered id =>
    match lookupStr s.waiters id with
    | some w =>
      match w.returned, w.slot with
      | none, some r =>
        ({ table := s.table.filter (· ≠ id)
           waiters := mapAssign s.waiters id ⟨none, w.ctxDone, some (.delivered r)⟩ },
          .waiterDone id (.delivered r))
      | _, _ => (s, .noop)
    | none => (s, .noop)
  | .finishTimeout id =>
    match lookupStr s.waiters id with
    | some w =>
      match w.returned, w.ctxDone with
      | none, true =>
        ({ table := s.table.filter (· ≠ id)
           waiters := mapAssign s.waiters id ⟨w.slot, true, some .timedOut⟩ },
          .waiterDone id .timedOut)
      | _, _ => (s, .noop)
    | none => (s, .noop)

def pendingRun : PendingState → List PendingEvent → PendingState × List PendingObs
  | s, [] => (s, [])
  | s, e :: evs =>
    let so := pendingStep s e
    let rest := pendingRun so.1 evs
    (rest.1, so.2 :: rest.2)

def isWaiterDoneFor (id : String) : PendingObs → Bool
  | .waiterDone i _ => i = id
  | _ => false

def countWaiterDone (obs : List PendingObs) (id : String) : Nat :=
  obs.countP (isWaiterDoneFor id)

def isRegisterFor (id : String) : PendingEvent → Bool
  | .register i => i = id
  | _ => false

def countRegister (evs : List PendingEvent) (id : String) : Nat :=
  evs.countP (isRegisterFor id)

/-- Credit: 1 while a waiter for `id` exists whose select has not yet
returned, else 0. -/
def creditW (ws : List (String × Waiter)) (id : String) : Nat :=
  match lookupStr ws id with
  | some w => if w.returned = none then 1 else 0
  | none => 0

def waiterCredit (s : PendingState) (id : String) : Nat := creditW s.waiters id

/-- A waiter that has returned has no table entry left. -/
def ReturnedGone (s : PendingState) (id : String) : Prop :=
  ∀ w, lookupStr s.waiters id = some w → w.returned.isSome = true → id ∉ s.table

theorem creditW_mapAssign_ne (ws : List (String × Waiter)) (id id' : String) (v : Waiter)
    (h : id ≠ id') : creditW (mapAssign ws id' v) id = creditW ws id := by
  unfold creditW
  rw [lookupStr_mapAssign_ne _ _ _ _ h]

theorem creditW_mapAssign_self (ws : List (String × Waiter)) (id : String) (v : Waiter) :
    creditW (mapAssign ws id v) id = if v.returned = none then 1 else 0 := by
  unfold creditW
  rw [lookupStr_mapAssign_self]

theorem pendingStep_credit (s : PendingState) (e : PendingEvent) (id : String) :
    waiterCredit (pendingStep s e).1 id +
        (if isWaiterDoneFor id (pendingStep s e).2 then 1 else 0) ≤
      waiterCredit s id + (if isRegisterFor id e then 1 else 0) := by
  cases e with
  | register id' =>
    by_cases hid : id' = id
    · subst hid
      simp only [pendingStep, waiterCredit, isWaiterDoneFor, isRegisterFor,
        creditW_mapAssign_self]
      simp
    · simp only [pendingStep, waiterCredit, isWaiterDoneFor, isRegisterFor,
        creditW_mapAssign_ne _ _ _ _ (fun he => hid he.symm)]
      simp [hid]
  | response id' r =>
    by_cases hmem : id' ∈ s.table
    · cases hw : lookupStr s.waiters id' with
      | some w =>
        cases hslot : w.slot with
        | none =>
          by_cases hid : id' = id
          · subst hid
            simp only [pendingStep, hmem, if_true, hw, hslot, waiterCredit,
              isWaiterDoneFor, isRegisterFor, creditW_mapAssign_self]
            have hcw : creditW s.waiters id' = if w.returned = none then 1 else 0 := by
              unfold creditW
              rw [hw]
            simp [hcw]
          · simp only [pendingStep, hmem, if_true, hw, hslot, waiterCredit,
              isWaiterDoneFor, isRegisterFor,
              creditW_mapAssign_ne _ _ _ _ (fun he => hid he.symm)]
            simp [hid]
        | some r0 =>
          simp [pendingStep, hmem, hw, hslot, waiterCredit, isWaiterDoneFor,
            isRegisterFor]
      | none =>
        simp [pendingStep, hmem, hw, waiterCredit, isWaiterDoneFor, isRegisterFor]
    · simp [pendingStep, hmem, waiterCredit, isWaiterDoneFor, isRegisterFor]
  | ctxExpire id' =>
    cases hw : lookupStr s.waiters id' with
    | some w =>
      by_cases hid : id' = id
      · subst hid
        simp only [pendingStep, hw, waiterCredit, isWaiterDoneFor, isRegisterFor,
          creditW_mapAssign_self]
        have hcw : creditW s.waiters id' = if w.returned = none then 1 else 0 := by
          unfold creditW
          rw [hw]
        simp [hcw]
      · simp only [pendingStep, hw, waiterCredit, isWaiterDoneFor, isRegisterFor,
          creditW_mapAssign_ne _ _ _ _ (fun he => hid he.symm)]
        simp [hid]
    | none =>
      simp [pendingStep, hw, waiterCredit, isWaiterDoneFor, isRegisterFor]
  | sweep id' =>
    by_cases hmem : id' ∈ s.table
    · cases hw : lookupStr s.waiters id' with
      | some w =>
        by_cases hid : id' = id
        · subst hid
          simp only [pendingStep, hmem, if_true, hw, waiterCredit, isWaiterDoneFor,
            isRegisterFor, creditW_mapAssign_self]
          have hcw : creditW s.waiters id' = if w.returned = none then 1 else 0 := by
            unfold creditW
            rw [hw]
          simp [hcw]
        · simp only [pendingStep, hmem, if_true, hw, waiterCredit, isWaiterDoneFor,
            isRegisterFor, creditW_mapAssign_ne _ _ _ _ (fun he => hid he.symm)]
          simp [hid]
      | none =>
        simp [pendingStep, hmem, hw, waiterCredit, isWaiterDoneFor, isRegisterFor]
    · simp [pendingStep, hmem, waiterCredit, isWaiterDoneFor, isRegisterFor]
  | finishDelivered id' =>
    cases hw : lookupStr s.waiters id' with
    | some w =>
      cases hret : w.returned with
      | some o =>
        simp [pendingStep, hw, hret, waiterCredit, isWaiterDoneFor, isRegisterFor]
      | none =>
        cases hslot : w.slot with
        | none =>
          simp [pendingStep, hw, hret, hslot, waiterCredit, isWaiterDoneFor,
            isRegisterFor]
        | some r =>
          by_cases hid : id' = id
          · subst hid
            simp only [pendingStep, hw, hret, hslot, waiterCredit, isWaiterDoneFor,
              isRegisterFor, creditW_mapAssign_self]
            have hcw : creditW s.waiters id' = 1 := by
              unfold creditW
              rw [hw]
              simp [hret]
            simp [hcw]
          · simp only [pendingStep, hw, hret, hslot, waiterCredit, isWaiterDoneFor,
              isRegisterFor, creditW_mapAssign_ne _ _ _ _ (fun he => hid he.symm)]
            simp [hid]
    | none =>
      simp [pendingStep, hw, waiterCredit, isWaiterDoneFor, isRegisterFor]
  | finishTimeout id' =>
    cases hw : lookupStr s.waiters id' with
    | some w =>
      cases hret : w.returned with
      | some o =>
        simp [pendingStep, hw, hret, waiterCredit, isWaiterDoneFor, isRegisterFor]
      | none =>
        cases hctx : w.ctxDone with
        | false =>
          simp [pendingStep, hw, hret, hctx, waiterCredit, isWaiterDoneFor,
            isRegisterFor]
        | true =>
          by_cases hid : id' = id
          · subst hid
            simp only [pendingStep, hw, hret, hctx, waiterCredit, isWaiterDoneFor,
              isRegisterFor, creditW_mapAssign_self]
            have hcw : creditW s.waiters id' = 1 := by
              unfold creditW
              rw [hw]
              simp [hret]
            simp [hcw]
          · simp only [pendingStep, hw, hret, hctx, waiterCredit, isWaiterDoneFor,
              isRegisterFor, creditW_mapAssign_ne _ _ _ _ (fun he => hid he.symm)]
            simp [hid]
    | none =>
      simp [pendingStep, hw, waiterCredit, isWaiterDoneFor, isRegisterFor]

theorem pendingStep_ReturnedGone (s : PendingState) (e : PendingEvent) (id : String)
    (h : ReturnedGone s id) : ReturnedGone (pendingStep s e).1 id := by
  cases e with
  | register id' =>
    simp only [pendingStep]
    intro w hw hsome
    by_cases hid : id' = id
    · subst hid
      rw [lookupStr_mapAssign_self] at hw
      cases hw
      simp at hsome
    · rw [lookupStr_mapAssign_ne _ _ _ _ (fun he => hid he.symm)] at hw
      have hnot := h w hw hsome
      by_cases hmem : id' ∈ s.table
      · simpa [hmem] using hnot
      · simp only [if_neg hmem, List.mem_append, List.mem_singleton]
        exact fun hc => hc.elim hnot (fun he => hid he.symm)
  | response id' r =>
    by_cases hmem : id' ∈ s.table
    · cases hw' : lookupStr s.waiters id' with
      | some w' =>
        cases hslot : w'.slot with
        | none =>
          simp only [pendingStep, hmem, if_true, hw', hslot]
          intro w hw hsome
          by_cases hid : id' = id
          · subst hid
            rw [lookupStr_mapAssign_self] at hw
            cases hw
            simp at hsome
            exact absurd hmem (h w' hw' hsome)
          · rw [lookupStr_mapAssign_ne _ _ _ _ (fun he => hid he.symm)] at hw
            exact h w hw hsome
        | some r0 =>
          simp only [pendingStep, hmem, if_true, hw', hslot]
          exact h
      | none =>
        simp only [pendingStep, hmem, if_true, hw']
        exact h
    · simp only [pendingStep, if_neg hmem]
      exact h
  | ctxExpire id' =>
    cases hw' : lookupStr s.waiters id' with
    | some w' =>
      simp only [pendingStep, hw']
      intro w hw hsome
      by_cases hid : id' = id
      · subst hid
        rw [lookupStr_mapAssign_self] at hw
        cases hw
        simp at hsome
        exact h w' hw' hsome
      · rw [lookupStr_mapAssign_ne _ _ _ _ (fun he => hid he.symm)] at hw
        exact h w hw hsome
    | none =>
      simp only [pendingStep, hw']
      exact h
  | sweep id' =>
    by_cases hmem : id' ∈ s.table
    · cases hw' : lookupStr s.waiters id' with
      | some w' =>
        simp only [pendingStep, hmem, if_true, hw']
        intro w hw hsome
        by_cases hid : id' = id
        · subst hid
          simp [List.mem_filter]
        · rw [lookupStr_mapAssign_ne _ _ _ _ (fun he => hid he.symm)] at hw
          intro hin
          exact h w hw hsome (List.mem_of_mem_filter hin)
      | none =>
        simp only [pendingStep, hmem, if_true, hw']
        intro w hw hsome hin
        exact h w hw hsome (List.mem_of_mem_filter hin)
    · simp only [pendingStep, if_neg hmem]
      exact h
  | finishDelivered id' =>
    cases hw' : lookupStr s.waiters id' with
    | some w' =>
      cases hret : w'.returned with
      | some o =>
        simp only [pendingStep, hw', hret]
        exact h
      | none =>
        cases hslot : w'.slot with
        | none =>
          simp only [pendingStep, hw', hret, hslot]
          exact h
        | some r =>
          simp only [pendingStep, hw', hret, hslot]
          intro w hw hsome
          by_cases hid : id' = id
          · subst hid
            simp [List.mem_filter]
          · rw [lookupStr_mapAssign_ne _ _ _ _ (fun he => hid he.symm)] at hw
            intro hin
            exact h w hw hsome (List.mem_of_mem_filter hin)
    | none =>
      simp only [pendingStep, hw']
      exact h
  | finishTimeout id' =>
    cases hw' : lookupStr s.waiters id' with
    | some w' =>
      cases hret : w'.returned with
      | some o =>
        simp only [pendingStep, hw', hret]
        exact h
      | none =>
        cases hctx : w'.ctxDone with
        | false =>
          simp only [pendingStep, hw', hret, hctx]
          exact h
        | true =>
          simp only [pendingStep, hw', hret, hctx]
          intro w hw hsome
          by_cases hid : id' = id
          · subst hid
            simp [List.mem_filter]
          · rw [lookupStr_mapAssign_ne _ _ _ _ (fun he => hid he.symm)] at hw
            intro hin
            exact h w hw hsome (List.mem_of_mem_filter hin)
    | none =>
      simp only [pendingStep, hw']
      exact h

theorem pendingRun_credit (id : String) (evs : List PendingEvent) :
    ∀ s : PendingState,
      waiterCredit (pendingRun s evs).1 id + countWaiterDone (pendingRun s evs).2 id ≤
        waiterCredit s id + countRegister evs id := by
  induction evs with
  | nil =>
    intro s
    simp [pendingRun, countWaiterDone, countRegister]
  | cons e rest ih =>
    intro s
    have hstep := pendingStep_credit s e id
    have hrest := ih (pendingStep s e).1
    simp only [pendingRun, countWaiterDone, countRegister, List.countP_cons] at *
    by_cases h1 : isWaiterDoneFor id (pendingStep s e).2 = true <;>
      by_cases h2 : isRegisterFor id e = true <;>
        simp only [h1, h2, if_true, if_false] at hstep ⊢ <;> omega

theorem pendingRun_ReturnedGone (id : String) (evs : List PendingEvent) :
    ∀ s : PendingState, ReturnedGone s id → ReturnedGone (pendingRun s evs).1 id := by
  induction evs with
  | nil =>
    intro s h
    simpa [pendingRun] using h
  | cons e rest ih =>
    intro s h
    simp only [pendingRun]
    exact ih _ (pendingStep_ReturnedGone s e id h)

/-- C3: for every msg_id registered at most once (msg_ids are fresh UUIDs),
along any interleaving of deliveries, timeouts, sweeps and select returns:
the waiter terminates at most once; once the waiter has returned, the
msg_id is gone from the pending table; a RESPONSE for a msg_id with no
pending entry is dropped without changing any state; and a RESPONSE for an
entry whose result slot is already full is likewise dropped. -/
theorem c3_at_most_once (evs : List PendingEvent) (id : String)
    (hreg : countRegister evs id ≤ 1) :
    countWaiterDone (pendingRun initPending evs).2 id ≤ 1 ∧
    ReturnedGone (pendingRun initPending evs).1 id ∧
    (∀ (s : PendingState) (r : ResponsePayload), id ∉ s.table →
      pendingStep s (.response id r) = (s, .droppedNoEntry id)) ∧
    (∀ (s : PendingState) (r : ResponsePayload) (w : Waiter), id ∈ s.table →
      lookupStr s.waiters id = some w → w.slot.isSome = true →
      pendingStep s (.response id r) = (s, .droppedSlotFull id)) := by
  refine ⟨?_, ?_, ?_, ?_⟩
  · have h1 := pendingRun_credit id evs initPending
    have h2 : waiterCredit initPending id = 0 := rfl
    rw [h2] at h1
    omega
  · apply pendingRun_ReturnedGone
    intro w hw hsome
    simp [initPending, lookupStr] at hw
  · intro s r hnot
    simp [pendingStep, hnot]
  · intro s r w hmem hw hslot
    rcases Option.isSome_iff_exists.mp hslot with ⟨r0, hr0⟩
    simp [pendingStep, hmem, hw, hr0]

/-- The happy-path RESPONSE payload of end-to-end scenario 1 (status 200,
body "OK"). -/
def okResponse : ResponsePayload :=
  { httpStatus := 200, headers := [], body := "OK", error := none }

/-- C3 witness trace: register a msg_id, deliver a response, let the waiter
return, then a late duplicate response arrives. -/
def c3Trace : List PendingEvent :=
  [.register "m-1", .response "m-1" okResponse, .finishDelivered "m-1",
    .response "m-1" okResponse]

/-- C3 witness: the at-most-once theorem applied to the concrete trace. -/
theorem c3_witness :
    countRegister c3Trace "m-1" ≤ 1 ∧
    (countWaiterDone (pendingRun initPending c3Trace).2 "m-1" ≤ 1 ∧
      ReturnedGone (pendingRun initPending c3Trace).1 "m-1" ∧
      (∀ (s : PendingState) (r : ResponsePayload), "m-1" ∉ s.table →
        pendingStep s (.response "m-1" r) = (s, .droppedNoEntry "m-1")) ∧
      (∀ (s : PendingState) (r : ResponsePayload) (w : Waiter), "m-1" ∈ s.table →
        lookupStr s.waiters "m-1" = some w → w.slot.isSome = true →
        pendingStep s (.response "m-1" r) = (s, .droppedSlotFull "m-1"))) :=
  ⟨by decide, c3_at_most_once c3Trace "m-1" (by decide)⟩

end TunnelFlow
